import Mathlib

/-!
# Verification of the jujushell session/container orchestration core

A shallow embedding, in Lean 4, of the parts of the jujushell code base that
the specification's claims are about:

* `containerName` — the container-key derivation (package `lxdutils`),
  including a full executable SHA-1 so that keys can be computed;
* `ensure` and its teardown path (package `lxdutils`), modelled as a trace of
  backend calls driven by an outcome oracle;
* `containerAddr` — the 300-iteration address poll (`lxdclient.container.Addr`);
* `waitReady` — the readiness poll (package `api`);
* the idle registry (`registry.Registry.stop`, `ActiveContainer.SetActive`);
* `authenticate` (package `juju`) and `isUserAllowed` (package `api`);
* `mkdir`/`WriteFile` ancestor creation (`lxdclient.container.mkdir`).

Machine integers are modelled as `Nat` with explicit `% 2^32` where the Go
code relies on 32-bit wraparound (SHA-1 only). Fallible Go calls return
`Except String`; the external backend (LXD), the Juju controller and the
network are modelled as outcome oracles passed to each function.
-/

set_option maxRecDepth 100000

namespace Jujushell

/-! ## SHA-1 (Go `crypto/sha1`), executable

`containerName` hashes the resolved user name with SHA-1; we embed the hash
function itself so that keys evaluate on concrete inputs. Words are `Nat`
truncated to 32 bits; messages and digests are lists of byte values. -/

/-- Truncation to a 32-bit word. -/
def w32 (n : Nat) : Nat := n % 4294967296

/-- Left rotation of a 32-bit word by `s` bits. -/
def rotl (s x : Nat) : Nat := w32 ((x <<< s) ||| (x >>> (32 - s)))

/-- The SHA-1 round constant for round `i`. -/
def sha1K (i : Nat) : Nat :=
  if i < 20 then 0x5A827999
  else if i < 40 then 0x6ED9EBA1
  else if i < 60 then 0x8F1BBCDC
  else 0xCA62C1D6

/-- The SHA-1 round function for round `i`. -/
def sha1F (i b c d : Nat) : Nat :=
  if i < 20 then (b &&& c) ||| ((b ^^^ 0xFFFFFFFF) &&& d)
  else if i < 40 then b ^^^ c ^^^ d
  else if i < 60 then (b &&& c) ||| (b &&& d) ||| (c &&& d)
  else b ^^^ c ^^^ d

/-- Big-endian byte expansion: the `k` low bytes of `n`, most significant
byte first. -/
def beBytes : Nat → Nat → List Nat
  | 0, _ => []
  | k + 1, n => beBytes k (n / 256) ++ [n % 256]

/-- SHA-1 message padding: a `0x80` byte, zeros up to 56 mod 64, then the
bit length as a 64-bit big-endian quantity. -/
def sha1Pad (msg : List Nat) : List Nat :=
  msg ++ [0x80] ++ List.replicate ((119 - msg.length % 64) % 64) 0
      ++ beBytes 8 (msg.length * 8)

/-- Split a byte list into 64-byte chunks (structural recursion on a fuel
that bounds the number of chunks, so the kernel can evaluate it). -/
def chunksAux : Nat → List Nat → List (List Nat)
  | 0, _ => []
  | fuel + 1, l => if l = [] then [] else l.take 64 :: chunksAux fuel (l.drop 64)

/-- Split a byte list into 64-byte chunks. -/
def chunks64 (l : List Nat) : List (List Nat) := chunksAux l.length l

/-- Pack bytes into big-endian 32-bit words. -/
def bytesToWords : List Nat → List Nat
  | b0 :: b1 :: b2 :: b3 :: rest =>
      (((b0 * 256 + b1) * 256 + b2) * 256 + b3) :: bytesToWords rest
  | _ => []

/-- Extend the 16-word message schedule by `k` more words. The accumulator
holds the schedule in reverse (newest word first), so `w[i-3]` is at index 2,
`w[i-8]` at index 7, `w[i-14]` at 13 and `w[i-16]` at 15. -/
def sha1Extend (acc : List Nat) : Nat → List Nat
  | 0 => acc
  | k + 1 =>
      sha1Extend
        (rotl 1 ((acc.getD 2 0) ^^^ (acc.getD 7 0) ^^^ (acc.getD 13 0) ^^^ (acc.getD 15 0)) :: acc)
        k

/-- The 80-word message schedule of a 64-byte chunk. -/
def sha1W (chunk : List Nat) : List Nat :=
  (sha1Extend (bytesToWords chunk).reverse 64).reverse

/-- The five SHA-1 working registers. -/
structure Sha1H where
  a : Nat
  b : Nat
  c : Nat
  d : Nat
  e : Nat

/-- One SHA-1 compression round; `iw` is the pair (round index, word). -/
def sha1Round (h : Sha1H) (iw : Nat × Nat) : Sha1H :=
  ⟨w32 (rotl 5 h.a + sha1F iw.1 h.b h.c h.d + h.e + sha1K iw.1 + iw.2),
    h.a, rotl 30 h.b, h.c, h.d⟩

/-- Process one 64-byte chunk. -/
def sha1Chunk (h0 : Sha1H) (chunk : List Nat) : Sha1H :=
  let h := (sha1W chunk).enum.foldl sha1Round h0
  ⟨w32 (h0.a + h.a), w32 (h0.b + h.b), w32 (h0.c + h.c),
    w32 (h0.d + h.d), w32 (h0.e + h.e)⟩

/-- The SHA-1 initial state. -/
def sha1Init : Sha1H := ⟨0x67452301, 0xEFCDAB89, 0x98BADCFE, 0x10325476, 0xC3D2E1F0⟩

/-- SHA-1 of a byte list: the 20-byte digest. -/
def sha1 (msg : List Nat) : List Nat :=
  let h := (chunks64 (sha1Pad msg)).foldl sha1Chunk sha1Init
  beBytes 4 h.a ++ beBytes 4 h.b ++ beBytes 4 h.c ++ beBytes 4 h.d ++ beBytes 4 h.e

/-- The ASCII code of the lowercase hex digit for `n < 16` (Go `%x`). -/
def hexByte (n : Nat) : Nat := if n < 10 then 48 + n else 87 + n

/-- Lowercase hex encoding of a byte list, as ASCII byte values. -/
def bytesHex (bs : List Nat) : List Nat :=
  bs.foldr (fun b acc => hexByte (b / 16) :: hexByte (b % 16) :: acc) []

/-- UTF-8 encoding of one character (Go strings are UTF-8 byte sequences). -/
def utf8Char (c : Char) : List Nat :=
  let n := c.toNat
  if n < 128 then [n]
  else if n < 2048 then [192 + n / 64, 128 + n % 64]
  else if n < 65536 then [224 + n / 4096, 128 + (n / 64) % 64, 128 + n % 64]
  else [240 + n / 262144, 128 + (n / 4096) % 64, 128 + (n / 64) % 64, 128 + n % 64]

/-- The UTF-8 bytes of a string, as Go's `[]byte(s)` produces them. -/
def strBytes (s : String) : List Nat := (s.toList.map utf8Char).flatten

/-- Cross-check of the SHA-1 embedding against the well-known digest of the
empty message. -/
theorem sha1_empty_digest :
    bytesHex (sha1 []) = strBytes "da39a3ee5e6b4b0d3255bfef95601890afd80709" := by
  decide

/-- Cross-check of the SHA-1 embedding against the well-known digest of
`"abc"`. -/
theorem sha1_abc_digest :
    bytesHex (sha1 (strBytes "abc")) = strBytes "a9993e364706816aba3e25717850c26c9cd0d89d" := by
  decide

/-! ## `containerName` (src/unnamed/part_016, lines 364–380)

The Go code builds `fmt.Sprintf("ts-%x-%s", sha1.Sum(username), r.Replace(username))`
where `r` replaces each of `@ + . _` with `-`, then crops the result at 60
bytes. We work at the byte level: the replacer substitutes single ASCII
characters, and in UTF-8 every byte of a multi-byte character is ≥ 0x80, so
byte-wise substitution agrees with Go's character-wise `strings.Replacer`. -/

/-- `strings.NewReplacer("@","-","+","-",".","-","_","-")` on one byte. -/
def sanitizeByte (b : Nat) : Nat :=
  if b = 64 ∨ b = 43 ∨ b = 46 ∨ b = 95 then 45 else b

/-- `containerName` from part_016: the container key for a resolved user, as
a byte sequence (Go `len` and slicing count bytes). -/
def containerName (username : String) : List Nat :=
  let sum := sha1 (strBytes username)
  let name := strBytes "ts-" ++ bytesHex sum ++ strBytes "-"
      ++ (strBytes username).map sanitizeByte
  if name.length > 60 then name.take 60 else name

/-- C2 counterexample: the claim asserts that `containerName` always yields a
60-character output, but for the resolved user `"bob"` the key has
3 + 40 + 1 + 3 = 47 bytes, not 60. -/
theorem containerName_bob_not_60 :
    (containerName "bob").length = 47 ∧ (containerName "bob").length ≠ 60 := by
  decide

/-- C2 (amended): for every resolved-user string `u`, the container key equals
`"ts-" + lowercase-hex(SHA1(u)) + "-" + sanitize(u)` truncated to at most 60
characters, where `sanitize` replaces each of `@ + . _` with `-`; the function
is pure and deterministic (equal inputs give equal outputs), the output has at
most 60 characters, and for the input `"these.are@the++voy_age"` the result is
no longer than 60 characters (it is exactly 60). -/
theorem containerName_spec (u : String) :
    containerName u =
      (strBytes "ts-" ++ bytesHex (sha1 (strBytes u)) ++ strBytes "-"
        ++ (strBytes u).map sanitizeByte).take 60
    ∧ (containerName u).length ≤ 60
    ∧ (∀ v : String, v = u → containerName v = containerName u)
    ∧ (containerName "these.are@the++voy_age").length = 60 := by
  have h1 : containerName u =
      (strBytes "ts-" ++ bytesHex (sha1 (strBytes u)) ++ strBytes "-"
        ++ (strBytes u).map sanitizeByte).take 60 := by
    simp only [containerName]
    split
    · rfl
    · next h => exact (List.take_of_length_le (by omega)).symm
  refine ⟨h1, ?_, fun v hv => by rw [hv], by decide⟩
  rw [h1]
  exact List.length_take_le _ _

/-- Witness for `containerName_spec`: the theorem applied at the concrete
input `"bob"`, discharging the inner hypothesis `v = u` by `rfl`. -/
theorem containerName_spec_witness :
    (containerName "these.are@the++voy_age").length = 60
      ∧ containerName "bob" = containerName "bob" :=
  ⟨(containerName_spec "bob").2.2.2, (containerName_spec "bob").2.2.1 "bob" rfl⟩

/-! ## `isUserAllowed` (src/internal/api/api.go, lines 184–196) -/

/-- `isUserAllowed`: with an empty allowed list every user is admitted,
otherwise the user must equal one of the entries (Go `==` on strings). -/
def isUserAllowed (user : String) (allowed : List String) : Bool :=
  if allowed.length = 0 then true
  else allowed.any (fun u => u == user)

/-- C9: for every resolved user `u` and allowed-user list `L`: if `L` is
empty, `u` is admitted; if `L` is non-empty, `u` is admitted if and only if
`u` is equal (byte for byte, case-sensitively) to some member of `L`. -/
theorem isUserAllowed_spec (user : String) (allowed : List String) :
    (allowed = [] → isUserAllowed user allowed = true)
    ∧ (allowed ≠ [] → (isUserAllowed user allowed = true ↔ user ∈ allowed)) := by
  constructor
  · intro h
    subst h
    rfl
  · intro h
    rw [isUserAllowed, if_neg (by simpa [List.length_eq_zero] using h)]
    simp [List.any_eq_true, beq_iff_eq]

/-- Witness for `isUserAllowed_spec` at concrete inputs: the empty list
admits `"alice"`, and with `["alice"]` admission is exact (case-sensitive)
membership. -/
theorem isUserAllowed_spec_witness :
    isUserAllowed "alice" [] = true
      ∧ (isUserAllowed "Alice" ["alice"] = true ↔ "Alice" ∈ ["alice"]) :=
  ⟨(isUserAllowed_spec "alice" []).1 rfl,
    (isUserAllowed_spec "Alice" ["alice"]).2 (by decide)⟩

/-! ## `juju.Authenticate` (src/internal/juju/juju.go, lines 26–60)

The controller dial (`apiOpen`) and the macaroon cookie installation are
external effects; they are modelled as an outcome oracle, and `authenticate`
additionally returns how many dials it performed. -/

/-- `juju.Credentials`: the userpass pair or the macaroon map (URL →
macaroon slice, the slice being abstract payload here). -/
structure Credentials where
  username : String
  password : String
  macaroons : List (String × List Nat)

/-- `juju.Info`, the product of a successful authentication. -/
structure Info where
  user : String
  controllerName : String
  controllerUUID : String
  caCert : String
  endpoints : List String
deriving DecidableEq

/-- The authenticated connection returned by a successful dial. -/
structure Conn where
  authTagId : String
  controllerTagId : String
  hostPorts : List String

/-- The outcomes of `Authenticate`'s two external effects: storing macaroons
into the bakery client jar, and `apiOpen`. -/
structure AuthOracle where
  setMacaroons : Except String Unit
  dial : Except String Conn

/-- The error of juju.go line 41, for missing/contradictory credentials. -/
def errEitherUserpassOrMacaroons : String :=
  "either userpass or macaroons must be provided"

/-- The local name assigned to the Juju controller (juju.go line 157). -/
def jujuControllerName : String := "ctrl"

/-- The dial tail of `Authenticate`: `apiOpen` plus the construction of the
returned `Info`; the second component counts dials (always 1 here). -/
def authDial (cert : String) (o : AuthOracle) : Except String Info × Nat :=
  match o.dial with
  | .error e => (.error ("cannot authenticate user: " ++ e), 1)
  | .ok conn =>
      (.ok ⟨conn.authTagId, jujuControllerName, conn.controllerTagId, cert,
        conn.hostPorts⟩, 1)

/-- `juju.Authenticate`: macaroons branch, userpass branch, or the
missing-credentials error produced before any dial. -/
def authenticate (cert : String) (creds : Credentials) (o : AuthOracle) :
    Except String Info × Nat :=
  if creds.macaroons.length ≠ 0 then
    match o.setMacaroons with
    | .error e =>
        (.error ("cannot store macaroons for logging into controller: " ++ e), 0)
    | .ok _ => authDial cert o
  else if creds.username ≠ "" ∧ creds.password ≠ "" then
    authDial cert o
  else
    (.error errEitherUserpassOrMacaroons, 0)

/-- C8: `authenticate` succeeds only through one of two branches — the
macaroon map is non-empty, or both username and password are non-empty; for
every other combination it returns the missing-credentials error (juju.go
line 41, which the spec renders as "either credential pair or identity
tokens must be provided") having made zero network dials. -/
theorem authenticate_spec (cert : String) (creds : Credentials) (o : AuthOracle) :
    (creds.macaroons = [] → (creds.username = "" ∨ creds.password = "") →
      authenticate cert creds o = (.error errEitherUserpassOrMacaroons, 0))
    ∧ (∀ info, (authenticate cert creds o).1 = .ok info →
        creds.macaroons ≠ [] ∨ (creds.username ≠ "" ∧ creds.password ≠ "")) := by
  constructor
  · intro hm hup
    rw [authenticate, if_neg (by simp [hm]), if_neg (by tauto)]
  · intro info h
    by_cases hm : creds.macaroons.length ≠ 0
    · left
      intro hnil
      simp [hnil] at hm
    · by_cases hup : creds.username ≠ "" ∧ creds.password ≠ ""
      · exact Or.inr hup
      · rw [authenticate, if_neg hm, if_neg hup] at h
        simp at h

/-- Witness for `authenticate_spec`: empty macaroons and a missing username
yield the missing-credentials error with zero dials, even against an oracle
whose dial would succeed. -/
theorem authenticate_spec_witness :
    authenticate "cert" ⟨"", "secret", []⟩ ⟨Except.ok (), Except.ok ⟨"who", "uuid", []⟩⟩
      = (.error errEitherUserpassOrMacaroons, 0) :=
  (authenticate_spec "cert" ⟨"", "secret", []⟩ ⟨Except.ok (), Except.ok ⟨"who", "uuid", []⟩⟩).1
    rfl (Or.inl rfl)

/-! ## The idle registry (src/unnamed/part_017)

`time.Timer` values are modelled by their observable state: still pending,
already fired (the `AfterFunc` callback ran or is running), or stopped. The
mutex is not modelled; each operation is one atomic step. -/

/-- The state of a Go `time.Timer` created with `time.AfterFunc`. -/
inductive TimerState
  | pending (remaining : Nat)
  | fired
  | stopped
deriving DecidableEq

/-- `Timer.Stop`: reports true (and stops the timer) only while the timer is
still pending; once fired or stopped it reports false and changes nothing. -/
def timerStop : TimerState → Bool × TimerState
  | .pending _ => (true, .stopped)
  | s => (false, s)

/-- A registry entry (part_017 `ActiveContainer`): the container name, the
configured inactivity duration, and the idle timer (`none` when the registry
duration is 0, in which case `Get` never creates a timer). -/
structure ActiveContainer where
  name : String
  d : Nat
  timer : Option TimerState
deriving DecidableEq

/-- `ActiveContainer.SetActive` (part_017 lines 113–121): nothing without a
timer; otherwise reset the timer to `d` exactly when `timer.Stop()` reports
it was still pending. -/
def setActive (c : ActiveContainer) : ActiveContainer :=
  match c.timer with
  | none => c
  | some t =>
      match timerStop t with
      | (true, _) => { c with timer := some (.pending c.d) }
      | (false, t2) => { c with timer := some t2 }

/-- The registry (part_017 `Registry`): duration and the name → entry map. -/
structure Registry where
  d : Nat
  containers : String → Option ActiveContainer

/-- `Registry.Get` (part_017 lines 55–76): return the stored entry, or create
and store a fresh one whose timer exists only when `d ≠ 0`. -/
def registryGet (r : Registry) (name : String) : Registry × ActiveContainer :=
  match r.containers name with
  | some c => (r, c)
  | none =>
      let c : ActiveContainer :=
        { name := name, d := r.d
          timer := if r.d ≠ 0 then some (.pending r.d) else none }
      ({ r with containers := fun k => if k = name then some c else r.containers k }, c)

/-- Updating the `timer` field with its current value leaves the record
unchanged. -/
theorem activeContainer_timer_eta (c : ActiveContainer) (t : Option TimerState)
    (h : c.timer = t) : { c with timer := t } = c := by
  cases c
  cases h
  rfl

/-- C7: `SetActive` resets the idle timer to the configured duration iff the
timer is still pending (not yet fired, not already stopped); once the timer
has fired, `SetActive` never restarts it (any number of calls leaves the
entry unchanged); and when the configured duration is zero, `Get` creates the
entry without a timer and `SetActive` is a no-op on it. -/
theorem setActive_spec (c : ActiveContainer) (r : Registry) (name : String) :
    (∀ rem, c.timer = some (.pending rem) →
      setActive c = { c with timer := some (.pending c.d) })
    ∧ (c.timer = some .fired → ∀ n, setActive^[n] c = c)
    ∧ (c.timer = some .stopped → setActive c = c)
    ∧ (c.timer = none → setActive c = c)
    ∧ (r.d = 0 → r.containers name = none →
        (registryGet r name).2.timer = none
          ∧ setActive (registryGet r name).2 = (registryGet r name).2) := by
  refine ⟨fun rem h => ?_, fun h => ?_, fun h => ?_, fun h => ?_, fun hd hnone => ?_⟩
  · rw [setActive, h]
    rfl
  · refine Function.iterate_fixed ?_
    rw [setActive, h]
    exact activeContainer_timer_eta c _ h
  · rw [setActive, h]
    exact activeContainer_timer_eta c _ h
  · rw [setActive, h]
  · have h2 : (registryGet r name).2.timer = none := by
      rw [registryGet, hnone]
      simp [hd]
    refine ⟨h2, ?_⟩
    rw [setActive, h2]

/-- Witness for `setActive_spec`: a pending timer is reset to the configured
duration; a fired timer is never restarted; a zero-duration registry entry
has no timer. -/
theorem setActive_spec_witness :
    setActive ⟨"c", 5, some (.pending 3)⟩ = ⟨"c", 5, some (.pending 5)⟩
      ∧ setActive^[2] ⟨"c", 5, some .fired⟩ = ⟨"c", 5, some .fired⟩
      ∧ (registryGet ⟨0, fun _ => none⟩ "c").2.timer = none :=
  ⟨(setActive_spec ⟨"c", 5, some (.pending 3)⟩ ⟨0, fun _ => none⟩ "c").1 3 rfl,
    (setActive_spec ⟨"c", 5, some .fired⟩ ⟨0, fun _ => none⟩ "c").2.1 rfl 2,
    ((setActive_spec ⟨"c", 5, some .fired⟩ ⟨0, fun _ => none⟩ "c").2.2.2.2 rfl rfl).1⟩

/-- The backend interactions of `Registry.stop`: the outcome of the fresh
connection, of the container lookup (returning the `Started` flag), and of
the stop call. -/
structure StopBackend where
  connect : Except String Unit
  get : Except String (String × Bool)
  stopRes : Except String Unit

/-- `Registry.stop` (part_017 lines 78–99): connect to the backend, look the
container up, verify it is still started, call stop, and only on success
delete the entry from the map. -/
def registryStop (r : Registry) (b : StopBackend) (name : String) :
    Registry × Except String Unit :=
  match b.connect with
  | .error e => (r, .error e)
  | .ok _ =>
      match b.get with
      | .error e => (r, .error e)
      | .ok c =>
          if !c.2 then (r, .error ("container " ++ name ++ " is not started"))
          else
            match b.stopRes with
            | .error e => (r, .error e)
            | .ok _ =>
                ({ r with
                    containers := fun k => if k = name then none else r.containers k },
                  .ok ())

/-- C6: when the idle timer fires, the stop path connects, looks the
container up, verifies it is still running, stops it, and removes the
registry entry only on success: after a successful stop the registry has no
entry for the key (other keys untouched), after any failing step the registry
is unchanged, and a container that is no longer running cannot stop
successfully. -/
theorem registryStop_spec (r : Registry) (b : StopBackend) (name : String) :
    ((registryStop r b name).2 = .ok () →
      ((registryStop r b name).1.containers name = none
        ∧ ∀ k, k ≠ name → (registryStop r b name).1.containers k = r.containers k))
    ∧ (∀ e, (registryStop r b name).2 = .error e → (registryStop r b name).1 = r)
    ∧ (∀ c, b.get = .ok c → c.2 = false → (registryStop r b name).2 ≠ .ok ()) := by
  obtain ⟨bc, bg, bs⟩ := b
  rcases bc with e0 | u0
  · have hres : registryStop r ⟨.error e0, bg, bs⟩ name = (r, .error e0) := rfl
    rw [hres]
    exact ⟨fun h => by simp at h, fun e h => rfl, fun c hg hs h => by simp at h⟩
  · rcases bg with e1 | c1
    · have hres : registryStop r ⟨.ok u0, .error e1, bs⟩ name = (r, .error e1) := rfl
      rw [hres]
      exact ⟨fun h => by simp at h, fun e h => rfl, fun c hgg hs h => by simp at hgg⟩
    · obtain ⟨cn, crun⟩ := c1
      rcases crun with _ | _
      · have hres : registryStop r ⟨.ok u0, .ok (cn, false), bs⟩ name
            = (r, .error ("container " ++ name ++ " is not started")) := rfl
        rw [hres]
        exact ⟨fun h => by simp at h, fun e h => rfl, fun c hgg hs h => by simp at h⟩
      · rcases bs with e2 | u2
        · have hres : registryStop r ⟨.ok u0, .ok (cn, true), .error e2⟩ name
              = (r, .error e2) := rfl
          rw [hres]
          refine ⟨fun h => by simp at h, fun e h => rfl, fun c hgg hs2 h => by simp at h⟩
        · have hres : registryStop r ⟨.ok u0, .ok (cn, true), .ok u2⟩ name
              = ({ r with
                    containers := fun k => if k = name then none else r.containers k },
                  .ok ()) := rfl
          rw [hres]
          refine ⟨fun h => ⟨by simp, fun k hk => by simp [hk]⟩,
            fun e h => by simp at h, fun c hgg hs2 h => ?_⟩
          simp only [Except.ok.injEq] at hgg
          rw [← hgg] at hs2
          simp at hs2

/-- Concrete registry used by the `registryStop_spec` witness. -/
def regW : Registry :=
  ⟨10, fun k => if k = "ts-abc" then some ⟨"ts-abc", 10, some (.pending 10)⟩ else none⟩

/-- Concrete backend used by the `registryStop_spec` witness: everything
succeeds and the container is reported as started. -/
def stopBackendW : StopBackend := ⟨.ok (), .ok ("ts-abc", true), .ok ()⟩

/-- Witness for `registryStop_spec`: a successful stop removes exactly the
stopped key from the registry map. -/
theorem registryStop_spec_witness :
    (registryStop regW stopBackendW "ts-abc").1.containers "ts-abc" = none
      ∧ ∀ k, k ≠ "ts-abc" →
          (registryStop regW stopBackendW "ts-abc").1.containers k = regW.containers k :=
  (registryStop_spec regW stopBackendW "ts-abc").1 rfl

/-! ## `container.Addr` (src/internal/lxdclient/lxdclient.go, lines 154–171)

Identical code appears as `container.addr` in src/unnamed/part_016 (lines
326–341). The backend is an oracle giving, per iteration, either a
`GetContainerState` failure or the address list of interface `eth0` (a
missing `eth0` key yields Go's zero value, i.e. the empty list). -/

/-- One address as reported on interface `eth0`. -/
structure NetAddr where
  family : String
  scope : String
  address : String
deriving DecidableEq

/-- One polling iteration's view of the backend. -/
inductive AddrStep
  | failed (e : String)
  | state (addrs : List NetAddr)

/-- The address filter of lxdclient.go line 164: family `inet`, scope
`global`, non-empty value. -/
def isGoodAddr (a : NetAddr) : Bool :=
  a.family == "inet" && a.scope == "global" && a.address != ""

/-- The polling loop of `container.Addr`: at most `fuel` more iterations,
currently at iteration `i`. Returns the result and the number of
`GetContainerState` polls performed; each non-final iteration is followed by
a 100 ms sleep (wall-clock time itself is outside the model). -/
def containerAddrAux (att : Nat → AddrStep) (i : Nat) :
    Nat → Except String String × Nat
  | 0 => (.error "cannot find address", 0)
  | fuel + 1 =>
      match att i with
      | .failed e => (.error ("cannot get state for container: " ++ e), 1)
      | .state addrs =>
          match addrs.find? isGoodAddr with
          | some a => (.ok a.address, 1)
          | none =>
              let r := containerAddrAux att (i + 1) fuel
              (r.1, r.2 + 1)

/-- `container.Addr`: the loop above run for 300 iterations. -/
def containerAddr (att : Nat → AddrStep) : Except String String × Nat :=
  containerAddrAux att 0 300

/-- `List.find?` returns the first element satisfying the predicate: there is
an index holding the hit, and every earlier index fails the predicate. -/
theorem find?_first {α : Type} (p : α → Bool) :
    ∀ (l : List α) (a : α), l.find? p = some a →
      ∃ k : Nat, l[k]? = some a ∧ p a = true
        ∧ ∀ j : Nat, j < k → ∀ b, l[j]? = some b → p b = false := by
  intro l
  induction l with
  | nil => intro a h; simp at h
  | cons x xs ih =>
      intro a h
      by_cases hx : p x
      · rw [List.find?_cons_of_pos _ hx] at h
        cases h
        exact ⟨0, by simp, hx, fun j hj b hb => absurd hj (by omega)⟩
      · rw [List.find?_cons_of_neg _ (by simpa using hx)] at h
        obtain ⟨k, h1, h2, h3⟩ := ih a h
        refine ⟨k + 1, by simpa using h1, h2, fun j hj b hb => ?_⟩
        cases j with
        | zero =>
            simp only [List.getElem?_cons_zero, Option.some.injEq] at hb
            subst hb
            simpa using hx
        | succ j2 =>
            exact h3 j2 (by omega) b (by simpa using hb)

/-- The loop performs at most `fuel` polls. -/
theorem containerAddrAux_polls (att : Nat → AddrStep) :
    ∀ fuel i, (containerAddrAux att i fuel).2 ≤ fuel := by
  intro fuel
  induction fuel with
  | zero => intro i; simp [containerAddrAux]
  | succ n ih =>
      intro i
      rw [containerAddrAux]
      split
      · simp
      · split
        · simp
        · simpa using Nat.add_le_add_right (ih (i + 1)) 1

/-- If the loop returns an address, some iteration before the fuel ran out
produced it via `find?`, and every earlier iteration returned a state with no
matching address. -/
theorem containerAddrAux_ok (att : Nat → AddrStep) :
    ∀ fuel i a, (containerAddrAux att i fuel).1 = .ok a →
      ∃ (t : Nat) (addrs : List NetAddr) (na : NetAddr),
        i ≤ t ∧ t < i + fuel ∧ att t = .state addrs
        ∧ addrs.find? isGoodAddr = some na ∧ a = na.address
        ∧ ∀ j, i ≤ j → j < t →
            ∃ l, att j = .state l ∧ l.find? isGoodAddr = none := by
  intro fuel
  induction fuel with
  | zero => intro i a h; simp [containerAddrAux] at h
  | succ n ih =>
      intro i a h
      rw [containerAddrAux] at h
      split at h
      · simp at h
      · rename_i addrs hs
        split at h
        · rename_i na hf
          simp only [Except.ok.injEq] at h
          exact ⟨i, addrs, na, Nat.le_refl i, by omega, hs, hf, h.symm,
            fun j hj1 hj2 => absurd hj1 (by omega)⟩
        · rename_i hf
          obtain ⟨t, l, na, h1, h2, h3, h4, h5, h6⟩ := ih (i + 1) a h
          refine ⟨t, l, na, by omega, by omega, h3, h4, h5, fun j hj1 hj2 => ?_⟩
          rcases Nat.eq_or_lt_of_le hj1 with rfl | hlt
          · exact ⟨addrs, hs, hf⟩
          · exact h6 j hlt hj2

/-- If every successfully fetched state in range has no matching address, the
loop never returns an address. -/
theorem containerAddrAux_none (att : Nat → AddrStep) :
    ∀ fuel i,
      (∀ t, i ≤ t → t < i + fuel → ∀ l, att t = .state l →
        l.find? isGoodAddr = none) →
      ∀ a, (containerAddrAux att i fuel).1 ≠ .ok a := by
  intro fuel
  induction fuel with
  | zero => intro i hno a h; simp [containerAddrAux] at h
  | succ n ih =>
      intro i hno a h
      rw [containerAddrAux] at h
      split at h
      · simp at h
      · rename_i addrs hs
        split at h
        · rename_i na hf
          rw [hno i (Nat.le_refl i) (by omega) addrs hs] at hf
          cases hf
        · exact ih (i + 1) (fun t ht1 ht2 => hno t (by omega) (by omega)) a h

/-- C4: `Addr` polls the backend's container state at most 300 times (100 ms
apart); if it returns an address, some iteration `t < 300` produced it as the
first entry, in address-list order, with family `inet`, scope `global` and a
non-empty value, every earlier iteration having had no such entry; and when
no iteration in range reports a matching address the call fails, so a session
never observes an empty or non-inet/global/eth0 container address. -/
theorem containerAddr_spec (att : Nat → AddrStep) :
    (containerAddr att).2 ≤ 300
    ∧ (∀ a, (containerAddr att).1 = .ok a →
        ∃ (t : Nat) (addrs : List NetAddr) (na : NetAddr),
          t < 300 ∧ att t = .state addrs
          ∧ na.family = "inet" ∧ na.scope = "global" ∧ na.address ≠ ""
          ∧ a = na.address
          ∧ (∃ k : Nat, addrs[k]? = some na
              ∧ ∀ j : Nat, j < k → ∀ b, addrs[j]? = some b → isGoodAddr b = false)
          ∧ ∀ j, j < t → ∃ l, att j = .state l ∧ l.find? isGoodAddr = none)
    ∧ ((∀ t, t < 300 → ∀ l, att t = .state l → l.find? isGoodAddr = none) →
        ∀ a, (containerAddr att).1 ≠ .ok a) := by
  refine ⟨containerAddrAux_polls att 300 0, fun a h => ?_, fun hno a => ?_⟩
  · obtain ⟨t, addrs, na, h1, h2, h3, h4, h5, h6⟩ := containerAddrAux_ok att 300 0 a h
    obtain ⟨k, hk1, hk2, hk3⟩ := find?_first isGoodAddr addrs na h4
    simp only [isGoodAddr, Bool.and_eq_true, beq_iff_eq, bne_iff_ne] at hk2
    exact ⟨t, addrs, na, by omega, h3, hk2.1.1, hk2.1.2, hk2.2, h5,
      ⟨k, hk1, hk3⟩, fun j hj => h6 j (by omega) hj⟩
  · exact containerAddrAux_none att 300 0
      (fun t ht1 ht2 => hno t (by omega)) a

/-- Concrete oracle for the `containerAddr_spec` witness: every iteration
reports one global inet address. -/
def addrOracleW : Nat → AddrStep :=
  fun _ => .state [⟨"inet", "global", "10.0.0.7"⟩]

/-- Witness for `containerAddr_spec`: applied at a concrete oracle whose
first iteration already carries a matching address. -/
theorem containerAddr_spec_witness :
    ∃ (t : Nat) (addrs : List NetAddr) (na : NetAddr),
      t < 300 ∧ addrOracleW t = .state addrs
      ∧ na.family = "inet" ∧ na.scope = "global" ∧ na.address ≠ ""
      ∧ "10.0.0.7" = na.address
      ∧ (∃ k : Nat, addrs[k]? = some na
          ∧ ∀ j : Nat, j < k → ∀ b, addrs[j]? = some b → isGoodAddr b = false)
      ∧ ∀ j, j < t → ∃ l, addrOracleW j = .state l ∧ l.find? isGoodAddr = none :=
  (containerAddr_spec addrOracleW).2.1 "10.0.0.7" rfl

/-! ## `waitReady` (src/internal/api/client.go, lines 16–43)

The HTTP client is an oracle giving, per attempt, either a network-layer
error or a response; a response body is modelled by the decoded `code` field
(`none` when the body does not decode as a `Response`). -/

/-- One `http.Client.Get` attempt. -/
inductive GetAttempt
  | netErr (e : String)
  | resp (body : Option String)

/-- The `waitReady` error taxonomy: the wrapped network error after
exhaustion, a body that fails to decode, or a decoded code other than ok. -/
inductive ReadyErr
  | netErr (e : String)
  | decodeErr
  | badCode (code : String)
deriving DecidableEq

/-- The retry loop of `waitReady`: up to `fuel` attempts starting at attempt
`i`; break on the first attempt that yields a response, sleep 100 ms after a
failed one, and keep the last network error for the post-loop check. Returns
the loop outcome and the number of attempts made. -/
def waitReadyLoop (att : Nat → GetAttempt) (i : Nat) :
    Nat → Except String (Option String) × Nat
  | 0 => (.error "", 0)
  | fuel + 1 =>
      match att i with
      | .resp b => (.ok b, 1)
      | .netErr e =>
          match fuel with
          | 0 => (.error e, 1)
          | _ + 1 =>
              let r := waitReadyLoop att (i + 1) fuel
              (r.1, r.2 + 1)

/-- `waitReady`: run the loop for `retries = 100` attempts, then inspect the
outcome: a still-standing network error is fatal, otherwise decode the body
and require code `"ok"` (`apiparams.OK`). -/
def waitReady (att : Nat → GetAttempt) : Except ReadyErr Unit × Nat :=
  match waitReadyLoop att 0 100 with
  | (.error e, n) => (.error (.netErr e), n)
  | (.ok none, n) => (.error .decodeErr, n)
  | (.ok (some code), n) =>
      if code = "ok" then (.ok (), n) else (.error (.badCode code), n)

/-- The loop makes at most `fuel` attempts. -/
theorem waitReadyLoop_attempts (att : Nat → GetAttempt) :
    ∀ fuel i, (waitReadyLoop att i fuel).2 ≤ fuel := by
  intro fuel
  induction fuel with
  | zero => intro i; simp [waitReadyLoop]
  | succ n ih =>
      intro i
      rw [waitReadyLoop]
      split
      · simp
      · split
        · simp
        · rename_i m
          have h2 := ih (i + 1)
          simpa using Nat.add_le_add_right h2 1

/-- When every attempt in range fails at the network layer, the loop exhausts
its fuel and reports the last attempt's error. -/
theorem waitReadyLoop_all_err (att : Nat → GetAttempt) :
    ∀ fuel i, 0 < fuel →
      (∀ t, i ≤ t → t < i + fuel → ∃ e, att t = .netErr e) →
      ∃ e, att (i + fuel - 1) = .netErr e
        ∧ waitReadyLoop att i fuel = (.error e, fuel) := by
  intro fuel
  induction fuel with
  | zero => intro i h0; omega
  | succ n ih =>
      intro i h0 hall
      obtain ⟨e, he⟩ := hall i (Nat.le_refl i) (by omega)
      cases n with
      | zero =>
          refine ⟨e, by simpa using he, ?_⟩
          rw [waitReadyLoop, he]
      | succ m =>
          obtain ⟨e2, he2, hrec⟩ := ih (i + 1) (by omega)
            (fun t ht1 ht2 => hall t (by omega) (by omega))
          refine ⟨e2, by have : i + 1 + (m + 1) - 1 = i + (m + 1 + 1) - 1 := by omega
                         rw [← this]; exact he2, ?_⟩
          rw [waitReadyLoop, he]
          simp [hrec]

/-- The first attempt that yields a response stops the loop, which returns
that body after `t - i + 1` attempts. -/
theorem waitReadyLoop_first_resp (att : Nat → GetAttempt) :
    ∀ fuel i t b, i ≤ t → t < i + fuel → att t = .resp b →
      (∀ j, i ≤ j → j < t → ∃ e, att j = .netErr e) →
      waitReadyLoop att i fuel = (.ok b, t - i + 1) := by
  intro fuel
  induction fuel with
  | zero => intro i t b h1 h2; omega
  | succ n ih =>
      intro i t b h1 h2 hresp hprev
      rcases Nat.eq_or_lt_of_le h1 with rfl | hlt
      · rw [waitReadyLoop, hresp]
        simp
      · obtain ⟨e, he⟩ := hprev i (Nat.le_refl i) hlt
        rw [waitReadyLoop, he]
        have hn : 0 < n := by omega
        obtain ⟨m, rfl⟩ : ∃ m, n = m + 1 := ⟨n - 1, by omega⟩
        have hrec := ih (i + 1) t b (by omega) (by omega) hresp
          (fun j hj1 hj2 => hprev j (by omega) hj2)
        rw [hrec]
        simp
        omega

/-- C5 counterexample: the claim says the readiness check fails only when all
100 attempts are exhausted, but when the very first attempt returns a
response whose body has code `"error"`, `waitReady` fails after a single
attempt. -/
theorem waitReady_fails_without_exhaustion :
    waitReady (fun _ => .resp (some "error")) = (.error (.badCode "error"), 1)
      ∧ (1 : Nat) < 100 := by
  constructor
  · rfl
  · omega

/-- C5 (amended): `waitReady` polls the status URL every 100 ms for up to 100
attempts; network-layer failures are treated as not-yet-ready and retried,
and failing with a network error requires exhausting all 100 attempts; the
first attempt that yields a response ends the polling immediately, and the
check then succeeds exactly when the body is JSON with code "ok" (a
non-decoding body or another code fails at once, without further retries). -/
theorem waitReady_spec (att : Nat → GetAttempt) :
    (waitReady att).2 ≤ 100
    ∧ ((∀ i, i < 100 → ∃ e, att i = .netErr e) →
        ∃ e, waitReady att = (.error (.netErr e), 100))
    ∧ (∀ i b, i < 100 → att i = .resp b →
        (∀ j, j < i → ∃ e, att j = .netErr e) →
        (waitReady att).2 = i + 1
          ∧ (waitReady att).1 = match b with
              | some code => if code = "ok" then .ok () else .error (.badCode code)
              | none => .error .decodeErr) := by
  refine ⟨?_, fun hall => ?_, fun i b hi hresp hprev => ?_⟩
  · rw [waitReady]
    split
    · rename_i e n heq
      have := waitReadyLoop_attempts att 100 0
      rw [heq] at this
      simpa using this
    · rename_i n heq
      have := waitReadyLoop_attempts att 100 0
      rw [heq] at this
      simpa using this
    · rename_i code n heq
      have := waitReadyLoop_attempts att 100 0
      rw [heq] at this
      split <;> simpa using this
  · obtain ⟨e, he, hloop⟩ := waitReadyLoop_all_err att 100 0 (by omega)
      (fun t ht1 ht2 => hall t (by omega))
    exact ⟨e, by rw [waitReady, hloop]⟩
  · have hloop := waitReadyLoop_first_resp att 100 0 i b (by omega) (by omega)
      hresp (fun j hj1 hj2 => hprev j hj2)
    rw [waitReady, hloop]
    cases b with
    | none => exact ⟨by simp, rfl⟩
    | some code =>
        by_cases hc : code = "ok"
        · exact ⟨by simp [hc], by simp [hc]⟩
        · exact ⟨by simp [hc], by simp [hc]⟩

/-- Witness for `waitReady_spec`: a first attempt answering `{code:"ok"}`
makes the check succeed after exactly one attempt. -/
theorem waitReady_spec_witness :
    (waitReady (fun _ => GetAttempt.resp (some "ok"))).2 = 0 + 1
      ∧ (waitReady (fun _ => GetAttempt.resp (some "ok"))).1 = .ok () :=
  (waitReady_spec (fun _ => GetAttempt.resp (some "ok"))).2.2 0 (some "ok")
    (by omega) rfl (fun j hj => absurd hj (by omega))

/-! ## `container.WriteFile` and `container.mkdir`
(src/internal/lxdclient/lxdclient.go, lines 196–212 and 270–313)

The container filesystem is an oracle: `fs` answers `GetContainerFile`
probes (`none` models any probe error, which the code treats as "absent"),
`createErr` gives `CreateContainerFile` failures. The walk emits a trace of
probe/create events; creations carry the uid/gid passed to the backend. -/

/-- Metadata returned by `GetContainerFile` for an existing path. -/
structure FileMeta where
  ftype : String
  uid : Int
  gid : Int

/-- One filesystem event of the walk. Directories are created with mode
0700, the final file with mode 0600 (modes are fixed in the code). -/
inductive FsEvent
  | probe (path : String)
  | createDir (path : String) (uid gid : Int)
  | createFile (path : String) (uid gid : Int)
deriving DecidableEq

/-- The uid/gid a creation event passes to `CreateContainerFile`. -/
def FsEvent.creationIds : FsEvent → Option (Int × Int)
  | .probe _ => none
  | .createDir _ u g => some (u, g)
  | .createFile _ u g => some (u, g)

/-- Go's `filepath.Dir` on the cleaned paths this program produces: the
prefix up to the last separator (the root stays `"/"`), `"."` when there is
no separator. -/
def goDir (p : String) : String :=
  let pre := (p.toList.reverse.dropWhile (fun c => c ≠ '/')).reverse
  if pre = [] then "."
  else if pre = ['/'] then "/"
  else String.mk pre.dropLast

/-- `strings.Count(path, "/")`. -/
def countSlash (p : String) : Nat := (p.toList.filter (fun c => c = '/')).length

/-- The segment array fill of `mkdir` (lxdclient.go lines 279–284): filled
from the deepest index down, `segments[i] = path; path = filepath.Dir(path)`,
yielding the ancestors shallowest first and the argument last. -/
def dirSegmentsAux (p : String) : Nat → List String
  | 0 => []
  | n + 1 => dirSegmentsAux (goDir p) n ++ [p]

/-- The segments `mkdir` walks for a directory path. -/
def dirSegments (p : String) : List String := dirSegmentsAux p (countSlash p)

/-- The body of `mkdir`'s single-flight closure: walk the segments
shallowest to deepest carrying the running uid/gid pair. An existing
non-directory aborts; an existing directory overwrites the pair with its
owner; a missing segment is created with the current pair. -/
def mkdirWalk (fs : String → Option FileMeta) (createErr : String → Option String) :
    List String → Int → Int → List FsEvent × Except String (Int × Int)
  | [], uid, gid => ([], .ok (uid, gid))
  | dir :: rest, uid, gid =>
      match fs dir with
      | some m =>
          if m.ftype ≠ "directory" then
            ([.probe dir],
              .error ("cannot create directory " ++ dir
                ++ ": a file with the same name exists in the container"))
          else
            let r := mkdirWalk fs createErr rest m.uid m.gid
            (.probe dir :: r.1, r.2)
      | none =>
          match createErr dir with
          | some e =>
              ([.probe dir, .createDir dir uid gid],
                .error ("cannot create directory " ++ dir ++ " in the container: " ++ e))
          | none =>
              let r := mkdirWalk fs createErr rest uid gid
              (.probe dir :: .createDir dir uid gid :: r.1, r.2)

/-- `container.mkdir`: the walk starts from Go's zero values uid = gid = 0.
(The walk runs under a single flight keyed `name + ":" + path`; one execution
is modelled.) -/
def mkdir (fs : String → Option FileMeta) (createErr : String → Option String)
    (path : String) : List FsEvent × Except String (Int × Int) :=
  mkdirWalk fs createErr (dirSegments path) 0 0

/-- `container.WriteFile`: create the ancestors of `path` via `mkdir`, then
create the file itself with the uid/gid `mkdir` returned. -/
def writeFile (fs : String → Option FileMeta) (createErr : String → Option String)
    (path : String) : List FsEvent × Except String Unit :=
  let r := mkdir fs createErr (goDir path)
  match r.2 with
  | .error e => (r.1, .error e)
  | .ok ids =>
      match createErr path with
      | some e =>
          (r.1 ++ [.createFile path ids.1 ids.2],
            .error ("cannot create file " ++ path ++ " in the container: " ++ e))
      | none => (r.1 ++ [.createFile path ids.1 ids.2], .ok ())

/-- When every walked segment is absent, the running uid/gid pair never
changes: all creations carry the incoming pair and a completed walk returns
it. -/
theorem mkdirWalk_absent (fs : String → Option FileMeta)
    (ce : String → Option String) :
    ∀ (segs : List String) (u g : Int),
      (∀ d, d ∈ segs → fs d = none) →
      (∀ ev ∈ (mkdirWalk fs ce segs u g).1,
          ev.creationIds = none ∨ ev.creationIds = some (u, g))
        ∧ ∀ ids, (mkdirWalk fs ce segs u g).2 = .ok ids → ids = (u, g) := by
  intro segs
  induction segs with
  | nil =>
      intro u g habs
      exact ⟨fun ev hev => absurd hev (by simp [mkdirWalk]),
        fun ids h => by simpa [mkdirWalk] using h.symm⟩
  | cons d rest ih =>
      intro u g habs
      have hd : fs d = none := habs d (by simp)
      rcases hce : ce d with _ | e
      · have hwalk : mkdirWalk fs ce (d :: rest) u g
            = (.probe d :: .createDir d u g :: (mkdirWalk fs ce rest u g).1,
                (mkdirWalk fs ce rest u g).2) := by
          simp [mkdirWalk, hd, hce]
        obtain ⟨ih1, ih2⟩ := ih u g (fun t ht => habs t (by simp [ht]))
        rw [hwalk]
        refine ⟨fun ev hev => ?_, fun ids h => ih2 ids h⟩
        rcases List.mem_cons.mp hev with rfl | hev2
        · exact Or.inl rfl
        · rcases List.mem_cons.mp hev2 with rfl | hev3
          · exact Or.inr rfl
          · exact ih1 ev hev3
      · have hwalk : mkdirWalk fs ce (d :: rest) u g
            = ([.probe d, .createDir d u g],
                .error ("cannot create directory " ++ d ++ " in the container: " ++ e)) := by
          simp [mkdirWalk, hd, hce]
        rw [hwalk]
        refine ⟨fun ev hev => ?_, fun ids h => by simp at h⟩
        rcases List.mem_cons.mp hev with rfl | hev2
        · exact Or.inl rfl
        · rcases List.mem_cons.mp hev2 with rfl | hev3
          · exact Or.inr rfl
          · exact absurd hev3 (by simp)

/-- Every creation's uid/gid is either the incoming pair or the owner of an
existing directory among the walked segments. -/
theorem mkdirWalk_source (fs : String → Option FileMeta)
    (ce : String → Option String) :
    ∀ (segs : List String) (u g : Int),
      ∀ ev ∈ (mkdirWalk fs ce segs u g).1, ∀ p q,
        ev.creationIds = some (p, q) →
        (p, q) = (u, g)
          ∨ ∃ d m, d ∈ segs ∧ fs d = some m ∧ m.ftype = "directory"
              ∧ p = m.uid ∧ q = m.gid := by
  intro segs
  induction segs with
  | nil => intro u g ev hev; exact absurd hev (by simp [mkdirWalk])
  | cons d rest ih =>
      intro u g ev hev p q hids
      rcases hd : fs d with _ | m
      · rcases hce : ce d with _ | e
        · have hwalk : mkdirWalk fs ce (d :: rest) u g
              = (.probe d :: .createDir d u g :: (mkdirWalk fs ce rest u g).1,
                  (mkdirWalk fs ce rest u g).2) := by
            simp [mkdirWalk, hd, hce]
          rw [hwalk] at hev
          rcases List.mem_cons.mp hev with rfl | hev2
          · simp [FsEvent.creationIds] at hids
          · rcases List.mem_cons.mp hev2 with rfl | hev3
            · simp only [FsEvent.creationIds, Option.some.injEq] at hids
              exact Or.inl hids.symm
            · rcases ih u g ev hev3 p q hids with h | ⟨d2, m2, hmem, h2, h3, h4, h5⟩
              · exact Or.inl h
              · exact Or.inr ⟨d2, m2, by simp [hmem], h2, h3, h4, h5⟩
        · have hwalk : mkdirWalk fs ce (d :: rest) u g
              = ([.probe d, .createDir d u g],
                  .error ("cannot create directory " ++ d ++ " in the container: " ++ e)) := by
            simp [mkdirWalk, hd, hce]
          rw [hwalk] at hev
          rcases List.mem_cons.mp hev with rfl | hev2
          · simp [FsEvent.creationIds] at hids
          · rcases List.mem_cons.mp hev2 with rfl | hev3
            · simp only [FsEvent.creationIds, Option.some.injEq] at hids
              exact Or.inl hids.symm
            · exact absurd hev3 (by simp)
      · by_cases hft : m.ftype = "directory"
        · have hwalk : mkdirWalk fs ce (d :: rest) u g
              = (.probe d :: (mkdirWalk fs ce rest m.uid m.gid).1,
                  (mkdirWalk fs ce rest m.uid m.gid).2) := by
            simp [mkdirWalk, hd, hft]
          rw [hwalk] at hev
          rcases List.mem_cons.mp hev with rfl | hev2
          · simp [FsEvent.creationIds] at hids
          · rcases ih m.uid m.gid ev hev2 p q hids with h | ⟨d2, m2, hmem, h2, h3, h4, h5⟩
            · refine Or.inr ⟨d, m, by simp, hd, hft, ?_, ?_⟩
              · exact congrArg Prod.fst h
              · exact congrArg Prod.snd h
            · exact Or.inr ⟨d2, m2, by simp [hmem], h2, h3, h4, h5⟩
        · have hwalk : mkdirWalk fs ce (d :: rest) u g
              = ([.probe d],
                  .error ("cannot create directory " ++ d
                    ++ ": a file with the same name exists in the container")) := by
            simp [mkdirWalk, hd, hft]
          rw [hwalk] at hev
          rcases List.mem_cons.mp hev with rfl | hev2
          · simp [FsEvent.creationIds] at hids
          · exact absurd hev2 (by simp)

/-- A completed walk returns either the incoming pair or the owner of an
existing directory among the segments. -/
theorem mkdirWalk_final (fs : String → Option FileMeta)
    (ce : String → Option String) :
    ∀ (segs : List String) (u g p q : Int),
      (mkdirWalk fs ce segs u g).2 = .ok (p, q) →
      (p = u ∧ q = g)
        ∨ ∃ d m, d ∈ segs ∧ fs d = some m ∧ m.ftype = "directory"
            ∧ p = m.uid ∧ q = m.gid := by
  intro segs
  induction segs with
  | nil =>
      intro u g p q h
      simp only [mkdirWalk, Except.ok.injEq, Prod.mk.injEq] at h
      exact Or.inl ⟨h.1.symm, h.2.symm⟩
  | cons d rest ih =>
      intro u g p q h
      rcases hd : fs d with _ | m
      · rcases hce : ce d with _ | e
        · have hwalk : (mkdirWalk fs ce (d :: rest) u g).2
              = (mkdirWalk fs ce rest u g).2 := by
            simp [mkdirWalk, hd, hce]
          rw [hwalk] at h
          rcases ih u g p q h with heq | ⟨d2, m2, hm, h2, h3, h4, h5⟩
          · exact Or.inl heq
          · exact Or.inr ⟨d2, m2, by simp [hm], h2, h3, h4, h5⟩
        · have hwalk : (mkdirWalk fs ce (d :: rest) u g).2
              = .error ("cannot create directory " ++ d ++ " in the container: " ++ e) := by
            simp [mkdirWalk, hd, hce]
          rw [hwalk] at h
          simp at h
      · by_cases hft : m.ftype = "directory"
        · have hwalk : (mkdirWalk fs ce (d :: rest) u g).2
              = (mkdirWalk fs ce rest m.uid m.gid).2 := by
            simp [mkdirWalk, hd, hft]
          rw [hwalk] at h
          rcases ih m.uid m.gid p q h with heq | ⟨d2, m2, hm, h2, h3, h4, h5⟩
          · exact Or.inr ⟨d, m, by simp, hd, hft, heq.1, heq.2⟩
          · exact Or.inr ⟨d2, m2, by simp [hm], h2, h3, h4, h5⟩
        · have hwalk : (mkdirWalk fs ce (d :: rest) u g).2
              = .error ("cannot create directory " ++ d
                  ++ ": a file with the same name exists in the container") := by
            simp [mkdirWalk, hd, hft]
          rw [hwalk] at h
          simp at h

/-- The trace of `writeFile` is the `mkdir` trace, followed (when `mkdir`
completed) by the creation of the file with the returned pair. -/
theorem writeFile_trace (fs : String → Option FileMeta)
    (ce : String → Option String) (path : String) :
    ((writeFile fs ce path).1 = (mkdir fs ce (goDir path)).1
        ∧ ∃ e, (mkdir fs ce (goDir path)).2 = .error e)
      ∨ ∃ ids, (mkdir fs ce (goDir path)).2 = .ok ids
          ∧ (writeFile fs ce path).1
              = (mkdir fs ce (goDir path)).1 ++ [.createFile path ids.1 ids.2] := by
  rcases h2 : (mkdir fs ce (goDir path)).2 with e | ids
  · left
    refine ⟨?_, e, rfl⟩
    rw [writeFile]
    simp [h2]
  · right
    refine ⟨ids, rfl, ?_⟩
    rw [writeFile]
    rcases hce : ce path with _ | e <;> simp [h2, hce]

/-- C10: in a `WriteFile(path, data)` call where no ancestor directory of
`path` exists, every directory created during the walk and the final file
carry owner uid 0 and gid 0; in general every creation's uid/gid is either
the zero default or the owner of a directory found to already exist among
the walked segments (shallowest to deepest); and once a segment is found to
exist as a directory with every following segment absent, its owner is
carried by every later creation and by the walk's returned pair (hence by
the final file). -/
theorem writeFile_owner_spec (fs : String → Option FileMeta)
    (ce : String → Option String) (path : String) :
    ((∀ d, d ∈ dirSegments (goDir path) → fs d = none) →
      ∀ ev ∈ (writeFile fs ce path).1,
        ev.creationIds = none ∨ ev.creationIds = some (0, 0))
    ∧ (∀ ev ∈ (writeFile fs ce path).1, ∀ p q, ev.creationIds = some (p, q) →
        (p = 0 ∧ q = 0)
          ∨ ∃ d m, d ∈ dirSegments (goDir path) ∧ fs d = some m
              ∧ m.ftype = "directory" ∧ p = m.uid ∧ q = m.gid)
    ∧ (∀ s l2 m (u g : Int), fs s = some m → m.ftype = "directory" →
        (∀ t, t ∈ l2 → fs t = none) →
        (∀ ev ∈ (mkdirWalk fs ce (s :: l2) u g).1,
            ev.creationIds = none ∨ ev.creationIds = some (m.uid, m.gid))
          ∧ ∀ ids, (mkdirWalk fs ce (s :: l2) u g).2 = .ok ids
              → ids = (m.uid, m.gid)) := by
  refine ⟨fun habs ev hev => ?_, fun ev hev p q hids => ?_,
    fun s l2 m u g hs hft habs => ?_⟩
  · obtain ⟨h1, h2⟩ := mkdirWalk_absent fs ce (dirSegments (goDir path)) 0 0 habs
    rcases writeFile_trace fs ce path with ⟨ht, _⟩ | ⟨ids, hok, ht⟩
    · rw [ht] at hev
      exact h1 ev hev
    · rw [ht] at hev
      rcases List.mem_append.mp hev with hev2 | hev2
      · exact h1 ev hev2
      · rcases List.mem_singleton.mp hev2 with rfl
        have hid0 : ids = ((0 : Int), (0 : Int)) := h2 ids hok
        right
        rw [FsEvent.creationIds, hid0]
  · rcases writeFile_trace fs ce path with ⟨ht, _⟩ | ⟨ids, hok, ht⟩
    · rw [ht] at hev
      rcases mkdirWalk_source fs ce (dirSegments (goDir path)) 0 0 ev hev p q hids
        with heq | hex
      · exact Or.inl ⟨congrArg Prod.fst heq, congrArg Prod.snd heq⟩
      · exact Or.inr hex
    · rw [ht] at hev
      rcases List.mem_append.mp hev with hev2 | hev2
      · rcases mkdirWalk_source fs ce (dirSegments (goDir path)) 0 0 ev hev2 p q hids
          with heq | hex
        · exact Or.inl ⟨congrArg Prod.fst heq, congrArg Prod.snd heq⟩
        · exact Or.inr hex
      · rcases List.mem_singleton.mp hev2 with rfl
        obtain ⟨p0, q0⟩ := ids
        simp only [FsEvent.creationIds, Option.some.injEq, Prod.mk.injEq] at hids
        rw [← hids.1, ← hids.2]
        exact mkdirWalk_final fs ce (dirSegments (goDir path)) 0 0 p0 q0 hok
  · have hwalk : mkdirWalk fs ce (s :: l2) u g
        = (.probe s :: (mkdirWalk fs ce l2 m.uid m.gid).1,
            (mkdirWalk fs ce l2 m.uid m.gid).2) := by
      simp [mkdirWalk, hs, hft]
    obtain ⟨h1, h2⟩ := mkdirWalk_absent fs ce l2 m.uid m.gid habs
    rw [hwalk]
    refine ⟨fun ev hev => ?_, fun ids h => h2 ids h⟩
    rcases List.mem_cons.mp hev with rfl | hev2
    · exact Or.inl rfl
    · exact h1 ev hev2

/-- Absent-filesystem oracle for the `writeFile_owner_spec` witness. -/
def fsAbsentW : String → Option FileMeta := fun _ => none

/-- Creation oracle for the `writeFile_owner_spec` witness: all creations
succeed. -/
def ceOkW : String → Option String := fun _ => none

/-- Witness for `writeFile_owner_spec`: on an empty container filesystem,
writing the controllers.yaml path creates every ancestor directory and the
file itself with uid 0 and gid 0. -/
theorem writeFile_owner_spec_witness :
    ∀ ev ∈ (writeFile fsAbsentW ceOkW
        "/home/ubuntu/.local/share/juju/controllers.yaml").1,
      ev.creationIds = none ∨ ev.creationIds = some (0, 0) :=
  (writeFile_owner_spec fsAbsentW ceOkW
      "/home/ubuntu/.local/share/juju/controllers.yaml").1
    (fun _ _ => rfl)

/-! ## `Ensure` and `container.delete` (src/unnamed/part_016, lines 46–99
and 146–163)

One `Ensure` run is modelled as a trace of backend calls driven by an
outcome oracle. The `singleFlight` helper (part_016 lines 406–420) makes
concurrent callers with one key share a single execution of the group body
whose result is broadcast; `ensureConcurrent` below models N concurrent
callers under exactly that contract. -/

/-- Summary of an existing container as returned by `GetContainers`. -/
structure ContainerSummary where
  name : List Nat
  status : String

/-- One backend call of an `Ensure` run, or a debug-log entry recording a
swallowed teardown error. -/
inductive Ev
  | list
  | create
  | start
  | addrPoll
  | prepare
  | execTeardown
  | stopC
  | deleteC
  | log (msg : String)
deriving DecidableEq

/-- Whether an event is a log entry. -/
def Ev.isLog : Ev → Bool
  | .log _ => true
  | _ => false

/-- Occurrences of an event in a trace. -/
def countEv (e : Ev) (tr : List Ev) : Nat := tr.count e

/-- Outcomes of the backend calls an `Ensure` run performs. `addrRes`
abstracts the `container.addr` poll (modelled in detail by `containerAddr`)
and `prepareRes` the whole credential-injection sequence of
`container.prepare`. -/
structure EnsureBackend where
  getContainers : Except String (List ContainerSummary)
  createRes : Except String Unit
  startRes : Except String Unit
  addrRes : Except String String
  prepareRes : Except String Unit
  execTeardownRes : Except String Unit
  stopRes : Except String Unit
  deleteRes : Except String Unit

/-- The log message of part_016 line 151. -/
def msgCannotTeardown : String := "cannot tear down the shell session"

/-- The log message of part_016 line 156. -/
def msgCannotStop : String := "cannot stop container"

/-- `container.delete` (part_016 lines 146–163): attempt the session
teardown exec (an error is logged and ignored), attempt stop (an error is
logged and ignored), then delete; only the `DeleteContainer` error is
returned, without being logged. -/
def containerDelete (b : EnsureBackend) : List Ev × Except String Unit :=
  let t1 : List Ev := [Ev.execTeardown] ++
    (match b.execTeardownRes with
      | .error _ => [Ev.log msgCannotTeardown]
      | .ok _ => [])
  let t2 : List Ev := [Ev.stopC] ++
    (match b.stopRes with
      | .error _ => [Ev.log msgCannotStop]
      | .ok _ => [])
  match b.deleteRes with
  | .error e => (t1 ++ t2 ++ [Ev.deleteC], .error ("cannot delete container: " ++ e))
  | .ok _ => (t1 ++ t2 ++ [Ev.deleteC], .ok ())

/-- The scan of part_016 lines 61–68: walk the container list; the last
entry with the wanted name decides `created` and `started`
(`started = status != "Stopped"`). -/
def scanContainers (cname : List Nat) (cs : List ContainerSummary) : Bool × Bool :=
  cs.foldl
    (fun acc c => if c.name == cname then (true, c.status != "Stopped") else acc)
    (false, false)

/-- The single-flight group body of `Ensure` (part_016 lines 55–81): list
the containers, create when absent, start when not started. -/
def ensureBody (b : EnsureBackend) (cname : List Nat) : List Ev × Except String Unit :=
  match b.getContainers with
  | .error e => ([Ev.list], .error ("cannot get containers: " ++ e))
  | .ok cs =>
      if (scanContainers cname cs).1 then
        if (scanContainers cname cs).2 then ([Ev.list], .ok ())
        else
          match b.startRes with
          | .error e => ([Ev.list, Ev.start], .error e)
          | .ok _ => ([Ev.list, Ev.start], .ok ())
      else
        match b.createRes with
        | .error e => ([Ev.list, Ev.create], .error e)
        | .ok _ =>
            match b.startRes with
            | .error e => ([Ev.list, Ev.create, Ev.start], .error e)
            | .ok _ => ([Ev.list, Ev.create, Ev.start], .ok ())

/-- What one caller runs after the single-flight section returns (part_016
lines 82–100): on a body error, the deferred teardown; otherwise the address
retrieval, then the preparation, each failure appending the deferred
teardown whose own result is discarded. -/
def ensureTail (b : EnsureBackend) (bodyRes : Except String Unit) :
    List Ev × Except String String :=
  match bodyRes with
  | .error e => ((containerDelete b).1, .error e)
  | .ok _ =>
      match b.addrRes with
      | .error e => ([Ev.addrPoll] ++ (containerDelete b).1, .error e)
      | .ok addr =>
          match b.prepareRes with
          | .error e => ([Ev.addrPoll, Ev.prepare] ++ (containerDelete b).1, .error e)
          | .ok _ => ([Ev.addrPoll, Ev.prepare], .ok addr)

/-- One sequential `Ensure` call for a user. -/
def ensure (b : EnsureBackend) (username : String) : List Ev × Except String String :=
  let body := ensureBody b (containerName username)
  let tail := ensureTail b body.2
  (body.1 ++ tail.1, tail.2)

/-- N concurrent `Ensure` calls with the same user (hence the same
single-flight key): the group body runs once and its result is broadcast;
every caller then separately runs the address retrieval, the preparation
and, on failure, its own deferred teardown. Caller tails are laid out in
caller order; any interleaving carries the same multiset of events. -/
def ensureConcurrent (b : EnsureBackend) (username : String) (n : Nat) :
    List Ev × List (Except String String) :=
  let body := ensureBody b (containerName username)
  let tail := ensureTail b body.2
  (body.1 ++ (List.replicate n tail.1).flatten, List.replicate n tail.2)

/-- The four possible traces of the single-flight body. -/
theorem ensureBody_trace_cases (b : EnsureBackend) (cname : List Nat) :
    (ensureBody b cname).1 = [Ev.list]
    ∨ (ensureBody b cname).1 = [Ev.list, Ev.start]
    ∨ (ensureBody b cname).1 = [Ev.list, Ev.create]
    ∨ (ensureBody b cname).1 = [Ev.list, Ev.create, Ev.start] := by
  obtain ⟨bg, bc, bs, ba, bp, bt, bst, bd⟩ := b
  rcases bg with e | cs
  · exact Or.inl rfl
  · by_cases h1 : (scanContainers cname cs).1
    · by_cases h2 : (scanContainers cname cs).2
      · left
        simp [ensureBody, h1, h2]
      · rcases bs with e | u
        · right; left
          simp [ensureBody, h1, h2]
        · right; left
          simp [ensureBody, h1, h2]
    · rcases bc with e | u
      · right; right; left
        simp [ensureBody, h1]
      · rcases bs with e | u2
        · right; right; right
          simp [ensureBody, h1]
        · right; right; right
          simp [ensureBody, h1]

/-- Event counts of the single-flight body: one list, at most one create, at
most one start, and none of the later-phase events. -/
theorem ensureBody_counts (b : EnsureBackend) (cname : List Nat) :
    countEv Ev.list (ensureBody b cname).1 = 1
    ∧ countEv Ev.create (ensureBody b cname).1 ≤ 1
    ∧ countEv Ev.start (ensureBody b cname).1 ≤ 1
    ∧ countEv Ev.addrPoll (ensureBody b cname).1 = 0
    ∧ countEv Ev.execTeardown (ensureBody b cname).1 = 0
    ∧ countEv Ev.stopC (ensureBody b cname).1 = 0
    ∧ countEv Ev.deleteC (ensureBody b cname).1 = 0 := by
  rcases ensureBody_trace_cases b cname with h | h | h | h <;> rw [h] <;> decide

/-- `countEv` distributes over append. -/
theorem countEv_append (e : Ev) (l1 l2 : List Ev) :
    countEv e (l1 ++ l2) = countEv e l1 + countEv e l2 := by
  simp [countEv]

/-- `countEv` over `n` flattened copies of a trace. -/
theorem countEv_flatten_replicate (e : Ev) (n : Nat) (l : List Ev) :
    countEv e (List.replicate n l).flatten = n * countEv e l := by
  induction n with
  | zero => simp [countEv]
  | succ m ih =>
      rw [List.replicate_succ, List.flatten_cons, countEv_append, ih]
      ring

/-- The teardown trace contains no list/create/start event. -/
theorem containerDelete_counts (b : EnsureBackend) :
    countEv Ev.list (containerDelete b).1 = 0
    ∧ countEv Ev.create (containerDelete b).1 = 0
    ∧ countEv Ev.start (containerDelete b).1 = 0 := by
  obtain ⟨bg, bc, bs, ba, bp, bt, bst, bd⟩ := b
  rcases bt with e1 | u1 <;> rcases bst with e2 | u2 <;> rcases bd with e3 | u3 <;>
    exact ⟨rfl, rfl, rfl⟩

/-- The four shapes of one caller's tail, each coupled with its result: a
failing tail ends in the teardown trace, a successful one performs exactly
the address retrieval and the preparation. -/
theorem ensureTail_cases (b : EnsureBackend) (res : Except String Unit) :
    ((ensureTail b res).1 = (containerDelete b).1
        ∧ ∃ e, (ensureTail b res).2 = .error e)
    ∨ ((ensureTail b res).1 = [Ev.addrPoll] ++ (containerDelete b).1
        ∧ ∃ e, (ensureTail b res).2 = .error e)
    ∨ ((ensureTail b res).1 = [Ev.addrPoll, Ev.prepare] ++ (containerDelete b).1
        ∧ ∃ e, (ensureTail b res).2 = .error e)
    ∨ ((ensureTail b res).1 = [Ev.addrPoll, Ev.prepare]
        ∧ ∃ a, (ensureTail b res).2 = .ok a) := by
  rcases res with e | u
  · exact Or.inl ⟨rfl, e, rfl⟩
  · rcases hba : b.addrRes with e | a
    · refine Or.inr (Or.inl ⟨?_, e, ?_⟩) <;> simp [ensureTail, hba]
    · rcases hbp : b.prepareRes with e | u2
      · refine Or.inr (Or.inr (Or.inl ⟨?_, e, ?_⟩)) <;> simp [ensureTail, hba, hbp]
      · refine Or.inr (Or.inr (Or.inr ⟨?_, a, ?_⟩)) <;> simp [ensureTail, hba, hbp]

/-- A caller's tail contains no list/create/start event. -/
theorem ensureTail_counts (b : EnsureBackend) (res : Except String Unit) :
    countEv Ev.list (ensureTail b res).1 = 0
    ∧ countEv Ev.create (ensureTail b res).1 = 0
    ∧ countEv Ev.start (ensureTail b res).1 = 0 := by
  obtain ⟨hd1, hd2, hd3⟩ := containerDelete_counts b
  rcases ensureTail_cases b res with ⟨h, _⟩ | ⟨h, _⟩ | ⟨h, _⟩ | ⟨h, _⟩ <;> rw [h]
  · exact ⟨hd1, hd2, hd3⟩
  · exact ⟨by rw [countEv_append, hd1]; try rfl, by rw [countEv_append, hd2]; try rfl,
      by rw [countEv_append, hd3]; try rfl⟩
  · exact ⟨by rw [countEv_append, hd1]; try rfl, by rw [countEv_append, hd2]; try rfl,
      by rw [countEv_append, hd3]; try rfl⟩
  · exact ⟨rfl, rfl, rfl⟩

/-- C1 counterexample: two concurrent `Ensure` calls with the same key run
create and start once, but the addr retrieval twice — it sits outside the
single-flight section (part_016 line 87, after `singleFlight` returns at
line 81), so "exactly one create/start/addr sequence" fails at the addr
step. -/
theorem ensureConcurrent_addr_twice :
    countEv Ev.addrPoll
        (ensureConcurrent ⟨.ok [], .ok (), .ok (), .ok "10.0.0.9", .ok (),
          .ok (), .ok (), .ok ()⟩ "who" 2).1 = 2
      ∧ countEv Ev.create
          (ensureConcurrent ⟨.ok [], .ok (), .ok (), .ok "10.0.0.9", .ok (),
            .ok (), .ok (), .ok ()⟩ "who" 2).1 = 1
      ∧ countEv Ev.start
          (ensureConcurrent ⟨.ok [], .ok (), .ok (), .ok "10.0.0.9", .ok (),
            .ok (), .ok (), .ok ()⟩ "who" 2).1 = 1 := by
  decide

/-- C1 (amended): when N `ensure` calls with the same container-key run
concurrently and collapse on the single-flight key, the list/create/start
section executes exactly once — one list, at most one create, at most one
start — and every caller receives the same result; the address retrieval
and the credential injection, which lie outside the critical section, run
once per caller (the injection's execs are deduplicated per
`(container, argv)` inside `prepareRes`). -/
theorem ensureConcurrent_spec (b : EnsureBackend) (username : String) (n : Nat) :
    countEv Ev.list (ensureConcurrent b username n).1 = 1
    ∧ countEv Ev.create (ensureConcurrent b username n).1 ≤ 1
    ∧ countEv Ev.start (ensureConcurrent b username n).1 ≤ 1
    ∧ countEv Ev.addrPoll (ensureConcurrent b username n).1
        = n * countEv Ev.addrPoll
            (ensureTail b (ensureBody b (containerName username)).2).1
    ∧ (ensureConcurrent b username n).2
        = List.replicate n (ensureTail b (ensureBody b (containerName username)).2).2
    ∧ ∀ r1 r2, r1 ∈ (ensureConcurrent b username n).2 →
        r2 ∈ (ensureConcurrent b username n).2 → r1 = r2 := by
  have hcc : (ensureConcurrent b username n).1
      = (ensureBody b (containerName username)).1
        ++ (List.replicate n
            (ensureTail b (ensureBody b (containerName username)).2).1).flatten := rfl
  obtain ⟨hb1, hb2, hb3, hb4, _, _, _⟩ := ensureBody_counts b (containerName username)
  obtain ⟨ht1, ht2, ht3⟩ := ensureTail_counts b (ensureBody b (containerName username)).2
  refine ⟨?_, ?_, ?_, ?_, rfl, fun r1 r2 h1 h2 => ?_⟩
  · rw [hcc, countEv_append, countEv_flatten_replicate, hb1, ht1]
    ring
  · rw [hcc, countEv_append, countEv_flatten_replicate, ht2]
    simpa using hb2
  · rw [hcc, countEv_append, countEv_flatten_replicate, ht3]
    simpa using hb3
  · rw [hcc, countEv_append, countEv_flatten_replicate, hb4]
    ring
  · have hrep : (ensureConcurrent b username n).2
        = List.replicate n
            (ensureTail b (ensureBody b (containerName username)).2).2 := rfl
    rw [hrep] at h1 h2
    rw [List.eq_of_mem_replicate h1, List.eq_of_mem_replicate h2]

/-- Witness for `ensureConcurrent_spec`: with an all-ok backend and three
concurrent callers, two concrete members of the result list are equal. -/
theorem ensureConcurrent_spec_witness :
    (Except.ok "10.0.0.9" : Except String String) = .ok "10.0.0.9" :=
  (ensureConcurrent_spec
      ⟨.ok [], .ok (), .ok (), .ok "10.0.0.9", .ok (), .ok (), .ok (), .ok ()⟩
      "who" 3).2.2.2.2.2 (.ok "10.0.0.9") (.ok "10.0.0.9")
    (List.mem_replicate.mpr ⟨by omega, rfl⟩)
    (List.mem_replicate.mpr ⟨by omega, rfl⟩)

/-- The result of the single-flight body is decided by the list, create and
start outcomes alone. -/
theorem ensureBody_result (b : EnsureBackend) (cname : List Nat) :
    (ensureBody b cname).2
      = match b.getContainers with
        | .error e => .error ("cannot get containers: " ++ e)
        | .ok cs =>
            if (scanContainers cname cs).1 then
              if (scanContainers cname cs).2 then .ok ()
              else b.startRes
            else
              match b.createRes with
              | .error e => .error e
              | .ok _ => b.startRes := by
  obtain ⟨bg, bc, bs, ba, bp, bt, bst, bd⟩ := b
  rcases bg with e | cs
  · rfl
  · by_cases h1 : (scanContainers cname cs).1
    · by_cases h2 : (scanContainers cname cs).2
      · simp [ensureBody, h1, h2]
      · rcases bs with e | u <;> simp [ensureBody, h1, h2]
    · rcases bc with e | u
      · simp [ensureBody, h1]
      · rcases bs with e | u2 <;> simp [ensureBody, h1]

/-- The result of a caller's tail is decided by the body result and the
addr/prepare outcomes alone. -/
theorem ensureTail_result (b : EnsureBackend) (r : Except String Unit) :
    (ensureTail b r).2
      = match r with
        | .error e => .error e
        | .ok _ =>
            match b.addrRes with
            | .error e => .error e
            | .ok addr =>
                match b.prepareRes with
                | .error e => .error e
                | .ok _ => .ok addr := by
  rcases r with e | u
  · rfl
  · rcases hba : b.addrRes with e | a
    · simp [ensureTail, hba]
    · rcases hbp : b.prepareRes with e | u2 <;> simp [ensureTail, hba, hbp]

/-- C3 counterexample: create/start/addr succeed, the preparation fails (the
original error) and the final `DeleteContainer` also fails; the call returns
the original error, yet its trace carries no log event at all — the delete
step's teardown error is discarded unlogged (the deferred `container.delete()`
value at part_016 line 51 is dropped), contradicting "errors from the
teardown steps are logged". -/
theorem ensure_delete_error_unlogged :
    (ensure ⟨.ok [], .ok (), .ok (), .ok "10.0.0.9", .error "prepare failed",
        .ok (), .ok (), .error "boom"⟩ "who").2 = .error "prepare failed"
      ∧ (⟨.ok [], .ok (), .ok (), .ok "10.0.0.9", .error "prepare failed",
          .ok (), .ok (), .error "boom"⟩ : EnsureBackend).deleteRes = .error "boom"
      ∧ ((ensure ⟨.ok [], .ok (), .ok (), .ok "10.0.0.9", .error "prepare failed",
          .ok (), .ok (), .error "boom"⟩ "who").1.all fun ev => !ev.isLog) = true := by
  exact ⟨rfl, rfl, by decide⟩

/-- A backend with only the three teardown outcomes replaced. -/
def withTeardown (b : EnsureBackend) (rt rs rd : Except String Unit) : EnsureBackend :=
  { b with execTeardownRes := rt, stopRes := rs, deleteRes := rd }

/-- The exec/stop/delete skeleton is an ordered sublist of any trace of the
teardown shape. -/
theorem sublist_teardown (l1 l2 : List Ev) :
    List.Sublist [Ev.execTeardown, Ev.stopC, Ev.deleteC]
      (Ev.execTeardown :: (l1 ++ (Ev.stopC :: (l2 ++ [Ev.deleteC])))) := by
  refine List.Sublist.cons₂ _ ?_
  refine List.Sublist.trans ?_ (List.sublist_append_right l1 _)
  refine List.Sublist.cons₂ _ ?_
  exact List.sublist_append_right l2 _

/-- C3 (amended): every failing `ensure` call ends its trace with the
best-effort teardown — exec of the session-teardown command, then stop, then
delete, in that order; errors of the exec and stop steps are logged, the
delete step's error is silently discarded, and only those two messages are
ever logged by the teardown; the call's result never depends on the teardown
outcomes, so no teardown error is returned in place of the original error; a
successful call performs no teardown. -/
theorem ensure_teardown_spec (b : EnsureBackend) (username : String) :
    (∀ e tr, ensure b username = (tr, .error e) →
      ∃ tpre, tr = tpre ++ (containerDelete b).1)
    ∧ (∀ a tr, ensure b username = (tr, .ok a) →
        countEv Ev.execTeardown tr = 0 ∧ countEv Ev.stopC tr = 0
          ∧ countEv Ev.deleteC tr = 0)
    ∧ List.Sublist [Ev.execTeardown, Ev.stopC, Ev.deleteC] (containerDelete b).1
    ∧ (∀ e2, b.execTeardownRes = .error e2 →
        Ev.log msgCannotTeardown ∈ (containerDelete b).1)
    ∧ (∀ e2, b.stopRes = .error e2 → Ev.log msgCannotStop ∈ (containerDelete b).1)
    ∧ (∀ m, Ev.log m ∈ (containerDelete b).1 →
        m = msgCannotTeardown ∨ m = msgCannotStop)
    ∧ (∀ rt rs rd, (ensure (withTeardown b rt rs rd) username).2
        = (ensure b username).2) := by
  have hens : ensure b username
      = ((ensureBody b (containerName username)).1
          ++ (ensureTail b (ensureBody b (containerName username)).2).1,
        (ensureTail b (ensureBody b (containerName username)).2).2) := rfl
  refine ⟨fun e tr h => ?_, fun a tr h => ?_, ?_, ?_, ?_, ?_, fun rt rs rd => ?_⟩
  · rw [hens] at h
    have htr : (ensureBody b (containerName username)).1
        ++ (ensureTail b (ensureBody b (containerName username)).2).1 = tr :=
      congrArg Prod.fst h
    have hres : (ensureTail b (ensureBody b (containerName username)).2).2
        = .error e := congrArg Prod.snd h
    rcases ensureTail_cases b (ensureBody b (containerName username)).2 with
      ⟨h1, _⟩ | ⟨h1, _⟩ | ⟨h1, _⟩ | ⟨h1, a, ha⟩
    · exact ⟨(ensureBody b (containerName username)).1, by rw [← htr, h1]⟩
    · exact ⟨(ensureBody b (containerName username)).1 ++ [Ev.addrPoll],
        by rw [← htr, h1, List.append_assoc]⟩
    · exact ⟨(ensureBody b (containerName username)).1 ++ [Ev.addrPoll, Ev.prepare],
        by rw [← htr, h1, List.append_assoc]⟩
    · rw [ha] at hres
      cases hres
  · rw [hens] at h
    have htr : (ensureBody b (containerName username)).1
        ++ (ensureTail b (ensureBody b (containerName username)).2).1 = tr :=
      congrArg Prod.fst h
    have hres : (ensureTail b (ensureBody b (containerName username)).2).2
        = .ok a := congrArg Prod.snd h
    obtain ⟨_, _, _, _, hb5, hb6, hb7⟩ := ensureBody_counts b (containerName username)
    rcases ensureTail_cases b (ensureBody b (containerName username)).2 with
      ⟨h1, e, he⟩ | ⟨h1, e, he⟩ | ⟨h1, e, he⟩ | ⟨h1, _⟩
    · rw [he] at hres
      cases hres
    · rw [he] at hres
      cases hres
    · rw [he] at hres
      cases hres
    · rw [← htr, h1]
      exact ⟨by rw [countEv_append, hb5]; try rfl,
        by rw [countEv_append, hb6]; try rfl,
        by rw [countEv_append, hb7]; try rfl⟩
  · obtain ⟨bg, bc, bs, ba, bp, bt, bst, bd⟩ := b
    rcases bt with e1 | u1 <;> rcases bst with e2 | u2 <;> rcases bd with e3 | u3 <;>
      first
        | exact sublist_teardown [] []
        | exact sublist_teardown [] [Ev.log msgCannotStop]
        | exact sublist_teardown [Ev.log msgCannotTeardown] []
        | exact sublist_teardown [Ev.log msgCannotTeardown] [Ev.log msgCannotStop]
  · obtain ⟨bg, bc, bs, ba, bp, bt, bst, bd⟩ := b
    intro e2 he2
    cases he2
    rcases bst with e3 | u3 <;> rcases bd with e4 | u4 <;> simp [containerDelete]
  · obtain ⟨bg, bc, bs, ba, bp, bt, bst, bd⟩ := b
    intro e2 he2
    cases he2
    rcases bt with e3 | u3 <;> rcases bd with e4 | u4 <;> simp [containerDelete]
  · obtain ⟨bg, bc, bs, ba, bp, bt, bst, bd⟩ := b
    intro m hm
    rcases bt with e1 | u1 <;> rcases bst with e2 | u2 <;> rcases bd with e3 | u3 <;>
      simp [containerDelete] at hm <;> tauto
  · show (ensureTail (withTeardown b rt rs rd)
        (ensureBody (withTeardown b rt rs rd) (containerName username)).2).2
      = (ensureTail b (ensureBody b (containerName username)).2).2
    rw [ensureTail_result, ensureTail_result, ensureBody_result, ensureBody_result]
    rfl

/-- Witness for `ensure_teardown_spec`: with a backend whose preparation
fails, the failing call's trace ends with the teardown trace. -/
theorem ensure_teardown_spec_witness :
    ∃ tpre, (ensure ⟨.ok [], .ok (), .ok (), .ok "10.0.0.9", .error "nope",
        .ok (), .ok (), .ok ()⟩ "bob").1
      = tpre ++ (containerDelete ⟨.ok [], .ok (), .ok (), .ok "10.0.0.9",
          .error "nope", .ok (), .ok (), .ok ()⟩).1 :=
  (ensure_teardown_spec
      ⟨.ok [], .ok (), .ok (), .ok "10.0.0.9", .error "nope", .ok (), .ok (), .ok ()⟩
      "bob").1 "nope"
    (ensure ⟨.ok [], .ok (), .ok (), .ok "10.0.0.9", .error "nope",
        .ok (), .ok (), .ok ()⟩ "bob").1
    rfl

end Jujushell
